import Mathlib

/-!
Verification of the Task Synchronization and Ordering Engine of the
KiryoTaskManager4 repository, as a shallow embedding in Lean 4.

The embedding follows the TypeScript sources:
- src/types.ts              : the Task data model (enums Status, Priority)
- src/App.tsx               : checkDependency, handleTaskReorder
- src/services/sheetService.ts : getTasks read-side sort, updateTask,
  updateTaskStatus, updateTaskOrders
- src/components/AdminDashboard.tsx : GanttChart timelineData,
  sortedValidTasks, handleMouseUp

Modelling conventions:
- Calendar dates (YYYY-MM-DD strings, compared via Date objects or
  localeCompare, both of which order ISO date strings chronologically)
  are modelled as integers counting days; an absent or empty date string
  (falsy in JavaScript) is modelled as Option.none.
- Timestamps (ISO strings turned into milliseconds via Date.getTime)
  are modelled as integers.
- JavaScript numbers holding integer order indices are modelled as Int.
  All tasks in the store carry an order value: getTasks materialises a
  missing cell as 0, so the idiom (t.order or 0) in the sources is the
  identity on this model.
- Array.prototype.sort with a comparator cmp is, per the ECMAScript
  specification, a stable sort with respect to the total preorder
  le a b = (cmp a b is not positive).  It is modelled by the stable
  List.insertionSort of that preorder.
-/

namespace KTM

/-- Status enum from src/types.ts (values 未着手 / 進行中 / 完了). -/
inductive Status where
  | notStarted
  | inProgress
  | completed
deriving DecidableEq, Repr

/-- Priority enum from src/types.ts (values 高 / 中 / 低). -/
inductive Priority where
  | high
  | medium
  | low
deriving DecidableEq, Repr

/-- Visibility of a task, literal union type public / private in src/types.ts. -/
inductive Visibility where
  | publicVis
  | privateVis
deriving DecidableEq, Repr

/-- The Task record from src/types.ts.  Dates are day numbers, timestamps are
    integers, optional string fields that JavaScript treats as falsy when
    absent or empty are Options (see the module header). -/
structure Task where
  id : String
  title : String
  detail : String
  assigneeEmail : String
  tag : String
  startDate : Option Int
  dueDate : Option Int
  priority : Priority
  status : Status
  createdAt : Int
  updatedAt : Int
  calendarEventId : Option String
  visibility : Visibility
  predecessorTaskId : Option String
  order : Int
deriving DecidableEq, Repr

/-- checkDependency from src/App.tsx (lines 131 to 144), restricted to the ok
    field of its result (the message field is presentation text).  The
    argument is the task carrying the proposed status, exactly as every call
    site passes it. -/
def checkDependency (tasks : List Task) (task : Task) : Bool :=
  match task.predecessorTaskId with
  | some pid =>
      if task.status ≠ Status.notStarted then
        match tasks.find? (fun t => t.id = pid) with
        | some predecessor => predecessor.status = Status.completed
        | none => true
      else true
  | none => true

/-- The transition check in the shape used by the callers in src/App.tsx:
    handleTaskMove and handleTaskReorder call checkDependency on the task
    with the proposed status substituted in. -/
def canTransition (task : Task) (newStatus : Status) (tasks : List Task) : Bool :=
  checkDependency tasks { task with status := newStatus }

/-- The total preorder realised by the comparator
    (a, b) => (a.order or 0) - (b.order or 0) used by handleTaskReorder in
    src/App.tsx (both for the target column and for the final combined list):
    a sorts no later than b when the comparator is not positive. -/
def orderLe (a b : Task) : Prop := a.order ≤ b.order

instance : DecidableRel orderLe :=
  fun a b => inferInstanceAs (Decidable (a.order ≤ b.order))

instance : IsTotal Task orderLe := ⟨fun a b => Int.le_total a.order b.order⟩

instance : IsTrans Task orderLe := ⟨fun _ _ _ h1 h2 => Int.le_trans h1 h2⟩

/-- Strict version of orderLe, used to identify sorted lists with pairwise
    distinct order values. -/
def orderLt (a b : Task) : Prop := a.order < b.order

instance : IsAntisymm Task orderLt :=
  ⟨fun _ _ h1 h2 => absurd h2 (Int.lt_asymm h1)⟩

/-- Array.prototype.sort with the order comparator, as invoked twice inside
    handleTaskReorder (src/App.tsx lines 259 to 262 and line 287): a stable
    sort of the orderLe preorder. -/
def reorderColumnSort (l : List Task) : List Task := List.insertionSort orderLe l

/-- The total preorder realised by the read-side comparator of getTasks in
    src/services/sheetService.ts (lines 463 to 469): order ascending, ties
    broken by createdAt descending. -/
def getTasksLe (a b : Task) : Prop :=
  if a.order ≠ b.order then a.order ≤ b.order else b.createdAt ≤ a.createdAt

instance : DecidableRel getTasksLe := fun a b => by
  unfold getTasksLe; infer_instance

/-- The read-side sort applied to the rows fetched by getTasks. -/
def getTasksSort (l : List Task) : List Task := List.insertionSort getTasksLe l

/-- The index clamping of handleTaskReorder (src/App.tsx lines 266 to 269):
    safeIndex is newIndex forced into the range 0 to len. -/
def clampIndex (i : Int) (len : Nat) : Nat :=
  if i < 0 then 0 else if (len : Int) < i then len else i.toNat

/-- The renumbering map (t, index) => (t with order set to index) of
    src/App.tsx lines 278 to 281, generalised to an arbitrary first index so
    that it can be defined by structural recursion. -/
def renumberFrom : Int → List Task → List Task
  | _, [] => []
  | n, t :: ts => { t with order := n } :: renumberFrom (n + 1) ts

/-- Step 1 of the local state update of handleTaskReorder: all tasks except
    the dragged one (src/App.tsx line 256). -/
def reorderOthers (tasks : List Task) (taskId : String) : List Task :=
  tasks.filter (fun t => ¬(t.id = taskId))

/-- Step 2: the remaining tasks of the target status, sorted by order
    (src/App.tsx lines 259 to 262). -/
def reorderTargetSorted (tasks : List Task) (taskId : String) (newStatus : Status) : List Task :=
  reorderColumnSort ((reorderOthers tasks taskId).filter (fun t => t.status = newStatus))

/-- Step 3: the clamped insertion index (src/App.tsx lines 264 to 269). -/
def reorderSafeIndex (tasks : List Task) (taskId : String) (newStatus : Status)
    (newIndex : Int) : Nat :=
  clampIndex newIndex (reorderTargetSorted tasks taskId newStatus).length

/-- Steps 4 and 5: the dragged task with its new status spliced into the
    target column at the safe index, and the column renumbered 0, 1, 2, ...
    (src/App.tsx lines 271 to 281). -/
def reorderNewColumn (tasks : List Task) (taskId : String) (newStatus : Status)
    (newIndex : Int) (draggedTask : Task) : List Task :=
  renumberFrom 0
    ((reorderTargetSorted tasks taskId newStatus).insertIdx
      (reorderSafeIndex tasks taskId newStatus newIndex)
      { draggedTask with status := newStatus })

/-- The local state update of handleTaskReorder in src/App.tsx (lines 252 to
    287): the OrderingReconciler.  The task named taskId is looked up; absent
    a match the collection is returned unchanged (the early return on line
    242).  Otherwise the renumbered target column is combined with the other
    columns and the whole collection is sorted by order.  The dependency gate
    and the remote writes that surround this block in the source are I/O
    performed by the caller and are modelled separately (checkDependency). -/
def handleTaskReorder (tasks : List Task) (taskId : String) (newStatus : Status)
    (newIndex : Int) : List Task :=
  match tasks.find? (fun t => t.id = taskId) with
  | none => tasks
  | some draggedTask =>
      reorderColumnSort
        ((reorderOthers tasks taskId).filter (fun t => ¬(t.status = newStatus))
          ++ reorderNewColumn tasks taskId newStatus newIndex draggedTask)

/-- The three interactive drag modes of the Gantt chart
    (src/components/AdminDashboard.tsx, DragState.type). -/
inductive DragType where
  | move
  | left
  | right
deriving DecidableEq, Repr

/-- Day column width in pixels (src/components/AdminDashboard.tsx line 202). -/
def colWidth : Int := 40

/-- Math.round(dragOffset / colWidth) from handleMouseUp (line 368).
    Math.round x equals the floor of x + 1/2, and with colWidth = 40 the
    floor of dragOffset / 40 + 1/2 is the floor of (dragOffset + 20) / 40. -/
def daysDelta (dragOffset : Int) : Int := Int.fdiv (dragOffset + colWidth / 2) colWidth

/-- The date shift applied by handleMouseUp (lines 375 to 382): move shifts
    both dates, a left resize shifts only the start, a right resize shifts
    only the end. -/
def shiftDates (ty : DragType) (d : Int) (s e : Int) : Int × Int :=
  match ty with
  | DragType.move => (s + d, e + d)
  | DragType.left => (s + d, e)
  | DragType.right => (s, e + d)

/-- handleMouseUp of the Gantt chart (src/components/AdminDashboard.tsx lines
    360 to 397), projected to the observable start and due dates of the
    dragged task after the interaction.  A zero day delta skips the update
    (line 369); a shift violating start less-or-equal due is discarded
    (line 385); otherwise the shifted dates are committed. -/
def handleMouseUp (ty : DragType) (dragOffset : Int) (originalStart originalEnd : Int) :
    Int × Int :=
  let d := daysDelta dragOffset
  if d ≠ 0 then
    let shifted := shiftDates ty d originalStart originalEnd
    if shifted.1 ≤ shifted.2 then shifted else (originalStart, originalEnd)
  else (originalStart, originalEnd)

/-- The forEach loop of timelineData (src/components/AdminDashboard.tsx lines
    223 to 235): a scan over the tasks tracking whether a task with both
    dates has been seen and the running minimum start and maximum due. -/
def ganttScan : List Task → Bool × Int × Int → Bool × Int × Int
  | [], acc => acc
  | t :: ts, (hasSet, mn, mx) =>
      ganttScan ts
        (match t.startDate, t.dueDate with
          | some s, some e =>
              if hasSet then (true, if s < mn then s else mn, if e > mx then e else mx)
              else (true, s, e)
          | _, _ => (hasSet, mn, mx))

/-- timelineData (src/components/AdminDashboard.tsx lines 212 to 254),
    projected to the first and last day of the produced dates array: an empty
    task list yields the single day today (line 215); otherwise the scan runs
    with min and max initialised to today and the window is buffered by 7
    days before and 14 days after (lines 238 to 241). -/
def timelineData (today : Int) (tasks : List Task) : Int × Int :=
  if tasks.isEmpty then (today, today)
  else
    let scan := ganttScan tasks (false, today, today)
    (scan.2.1 - 7, scan.2.2 + 14)

/-- The filter t.startDate and t.dueDate both present, used by both
    timelineData and sortedValidTasks. -/
def hasBothDates (t : Task) : Bool := t.startDate.isSome && t.dueDate.isSome

/-- The start and due dates of the tasks having both, in list order. -/
def qualPairs (tasks : List Task) : List (Int × Int) :=
  tasks.filterMap (fun t =>
    match t.startDate, t.dueDate with
    | some s, some e => some (s, e)
    | _, _ => none)

/-- validTasks from sortedValidTasks (src/components/AdminDashboard.tsx line
    261): the tasks with both dates set. -/
def validTasks (tasks : List Task) : List Task := tasks.filter hasBothDates

/-- taskMap lookup (line 264): the first task of the list bearing the id. -/
def findById (l : List Task) (i : String) : Option Task := l.find? (fun t => t.id = i)

/-- The adjacency entry of a parent id (lines 271 to 279): the valid tasks
    naming it as predecessor, in encounter order.  The source stores child
    ids and maps them back through taskMap; with unique ids that round trip
    is the identity. -/
def childrenOf (vt : List Task) (p : String) : List Task :=
  vt.filter (fun c => c.predecessorTaskId = some p)

/-- Sort key for the start-date sorts (lines 282 and 297): valid tasks carry
    a start date; localeCompare on ISO date strings is the chronological
    order of the modelled day numbers. -/
def startKey (t : Task) : Int := t.startDate.getD 0

/-- The start-date preorder of the root and children sorts. -/
def startLe (a b : Task) : Prop := startKey a ≤ startKey b

instance : DecidableRel startLe :=
  fun a b => inferInstanceAs (Decidable (startKey a ≤ startKey b))

/-- The stable sort by start date (lines 282 and 295 to 297). -/
def byStartSort (l : List Task) : List Task := List.insertionSort startLe l

/-- Root test (lines 271 to 278): a valid task is a root unless its
    predecessor id is set and resolves within the valid tasks. -/
def isRoot (vt : List Task) (t : Task) : Bool :=
  match t.predecessorTaskId with
  | none => true
  | some pid => (findById vt pid).isNone

/-- The roots in encounter order, then sorted by start date (line 282). -/
def ganttRoots (vt : List Task) : List Task := byStartSort (vt.filter (isRoot vt))

/-- The recursive visit of sortedValidTasks (lines 288 to 300): skip an
    already visited id, otherwise append the task and fold the visit over its
    children sorted by start date.  The source keeps the visited ids in a
    set; here they are read off the accumulated result, whose ids are exactly
    the visited set (the source pushes to both together).  The fuel argument
    makes the recursion structural; the call in dfsPart passes fuel that the
    traversal cannot exhaust, since every recursive step first appends a task
    with a previously unseen id drawn from the valid tasks. -/
def dfsVisit (vt : List Task) : Nat → List Task → Task → List Task
  | 0, res, _ => res
  | n + 1, res, t =>
      if t.id ∈ res.map Task.id then res
      else (byStartSort (childrenOf vt t.id)).foldl (dfsVisit vt n) (res ++ [t])

/-- The depth-first traversal from the sorted roots (line 302). -/
def dfsPart (tasks : List Task) : List Task :=
  (ganttRoots (validTasks tasks)).foldl
    (dfsVisit (validTasks tasks) ((validTasks tasks).length + 1)) []

/-- sortedValidTasks (src/components/AdminDashboard.tsx lines 260 to 312):
    the traversal output followed by the unvisited valid tasks in their
    original encounter order (lines 304 to 309). -/
def sortedValidTasks (tasks : List Task) : List Task :=
  dfsPart tasks
    ++ (validTasks tasks).filter (fun t => ¬(t.id ∈ (dfsPart tasks).map Task.id))

/-- The row written by updateTask (src/services/sheetService.ts lines 517 to
    551): the full task row with updatedAt rewritten to the current time. -/
def updateTask (task : Task) (now : Int) : Task := { task with updatedAt := now }

/-- updateTaskStatus (src/services/sheetService.ts lines 553 to 560): the
    task is located in the freshly fetched, read-side sorted snapshot and
    rewritten through updateTask with the new status; none models the thrown
    Task-not-found error. -/
def updateTaskStatus (sheet : List Task) (taskId : String) (status : Status) (now : Int) :
    Option Task :=
  (getTasksSort sheet).find? (fun t => t.id = taskId)
    |>.map (fun t => updateTask { t with status := status } now)

/-- updateTaskOrders (src/services/sheetService.ts lines 562 to 589): each
    batched task whose id maps to a sheet row overwrites only the order cell
    (column O) of that row; batched ids absent from the sheet are skipped.
    Viewed row by row, a sheet row whose id occurs in the batch receives that
    order value and every other cell of the row is untouched. -/
def updateTaskOrders (sheet : List Task) (updatedTasks : List Task) : List Task :=
  sheet.map (fun row =>
    match updatedTasks.find? (fun t => t.id = row.id) with
    | some t => { row with order := t.order }
    | none => row)

/-- A closed sample task used to build concrete inputs for witnesses and
    counterexamples. -/
def sampleTask : Task :=
  { id := "t0", title := "", detail := "", assigneeEmail := "", tag := ""
  , startDate := none, dueDate := none, priority := Priority.medium
  , status := Status.notStarted, createdAt := 0, updatedAt := 0
  , calendarEventId := none, visibility := Visibility.publicVis
  , predecessorTaskId := none, order := 0 }

/-- C2: with a predecessor id that resolves to a non-completed task, moving to
    IN_PROGRESS or COMPLETED is rejected; moving to NOT_STARTED is always
    allowed; a dangling predecessor id allows every transition. -/
theorem checkDependency_gating
    (tasks : List Task) (t p : Task) (pid : String)
    (hpid : t.predecessorTaskId = some pid) :
    ((tasks.find? (fun x => x.id = pid) = some p ∧ p.status ≠ Status.completed) →
        canTransition t Status.inProgress tasks = false ∧
        canTransition t Status.completed tasks = false) ∧
    canTransition t Status.notStarted tasks = true ∧
    (tasks.find? (fun x => x.id = pid) = none →
        ∀ s : Status, canTransition t s tasks = true) := by
  refine ⟨?_, ?_, ?_⟩
  · rintro ⟨hfind, hstat⟩
    constructor <;>
      simp [canTransition, checkDependency, hpid, hfind, hstat]
  · simp [canTransition, checkDependency, hpid]
  · intro hnone s
    cases s <;> simp [canTransition, checkDependency, hpid, hnone]

/-- Witness for checkDependency_gating at a concrete two-task store. -/
theorem checkDependency_gating_witness :
    let p := { sampleTask with id := "p1", status := Status.inProgress }
    let t := { sampleTask with id := "t1", predecessorTaskId := some "p1" }
    ([p, t].find? (fun x => x.id = "p1") = some p ∧ p.status ≠ Status.completed) ∧
    canTransition t Status.inProgress [p, t] = false ∧
    canTransition t Status.completed [p, t] = false ∧
    canTransition t Status.notStarted [p, t] = true := by
  intro p t
  have h := checkDependency_gating [p, t] t p "p1" (by rfl)
  refine ⟨⟨by decide, by decide⟩, ?_, ?_, h.2.1⟩
  · exact (h.1 ⟨by decide, by decide⟩).1
  · exact (h.1 ⟨by decide, by decide⟩).2

theorem renumberFrom_length :
    ∀ (l : List Task) (n : Int), (renumberFrom n l).length = l.length := by
  intro l
  induction l with
  | nil => intro n; rfl
  | cons t ts ih => intro n; simp [renumberFrom, ih]

theorem renumberFrom_map_status :
    ∀ (l : List Task) (n : Int),
      (renumberFrom n l).map Task.status = l.map Task.status := by
  intro l
  induction l with
  | nil => intro n; rfl
  | cons t ts ih => intro n; simp [renumberFrom, ih]

theorem renumberFrom_map_id :
    ∀ (l : List Task) (n : Int),
      (renumberFrom n l).map Task.id = l.map Task.id := by
  intro l
  induction l with
  | nil => intro n; rfl
  | cons t ts ih => intro n; simp [renumberFrom, ih]

theorem renumberFrom_map_order :
    ∀ (l : List Task) (n : Int),
      (renumberFrom n l).map Task.order
        = (List.range l.length).map (fun i : Nat => n + (i : Int)) := by
  intro l
  induction l with
  | nil => intro n; rfl
  | cons t ts ih =>
      intro n
      simp only [renumberFrom, List.map_cons, ih (n + 1), List.length_cons,
        List.range_succ_eq_map, List.map_map]
      refine congrArg₂ List.cons (by simp) ?_
      refine List.map_congr_left ?_
      intro i _
      show (n + 1) + (i : Int) = n + ((Nat.succ i : Nat) : Int)
      push_cast
      ring

theorem renumberFrom_pairwise_lt (l : List Task) (n : Int) :
    List.Pairwise orderLt (renumberFrom n l) := by
  have h : List.Pairwise (· < ·) ((renumberFrom n l).map Task.order) := by
    rw [renumberFrom_map_order]
    refine List.pairwise_map.mpr ?_
    refine (List.pairwise_lt_range _).imp (fun {a b} h => ?_)
    omega
  exact (List.pairwise_map.mp h).imp (fun h => h)

theorem reorderColumnSort_perm (l : List Task) : (reorderColumnSort l).Perm l :=
  List.perm_insertionSort _ l

theorem reorderColumnSort_sorted (l : List Task) :
    List.Sorted orderLe (reorderColumnSort l) :=
  List.sorted_insertionSort _ l

theorem clampIndex_le (i : Int) (len : Nat) : clampIndex i len ≤ len := by
  unfold clampIndex
  split
  · omega
  · split
    · omega
    · omega

theorem reorderSafeIndex_le (tasks : List Task) (taskId : String) (newStatus : Status)
    (newIndex : Int) :
    reorderSafeIndex tasks taskId newStatus newIndex
      ≤ (reorderTargetSorted tasks taskId newStatus).length :=
  clampIndex_le _ _

theorem reorderNewColumn_status (tasks : List Task) (taskId : String)
    (newStatus : Status) (newIndex : Int) (d : Task) :
    ∀ x ∈ reorderNewColumn tasks taskId newStatus newIndex d,
      x.status = newStatus := by
  intro x hx
  have hsx : x.status ∈ (reorderNewColumn tasks taskId newStatus newIndex d).map Task.status :=
    List.mem_map_of_mem _ hx
  rw [reorderNewColumn, renumberFrom_map_status] at hsx
  obtain ⟨y, hy, hyx⟩ := List.mem_map.mp hsx
  rcases (List.mem_insertIdx (reorderSafeIndex_le tasks taskId newStatus newIndex)).mp hy with
    hyd | hmem
  · rw [← hyx, hyd]
  · have := (reorderColumnSort_perm _).mem_iff.mp hmem
    have hstat := (List.mem_filter.mp this).2
    simp only [decide_eq_true_eq] at hstat
    rw [← hyx, hstat]

theorem handleTaskReorder_eq (tasks : List Task) (taskId : String) (newStatus : Status)
    (newIndex : Int) (d : Task)
    (hFind : tasks.find? (fun t => t.id = taskId) = some d) :
    handleTaskReorder tasks taskId newStatus newIndex
      = reorderColumnSort
          ((reorderOthers tasks taskId).filter (fun t => ¬(t.status = newStatus))
            ++ reorderNewColumn tasks taskId newStatus newIndex d) := by
  unfold handleTaskReorder
  rw [hFind]

theorem handleTaskReorder_filter_dest (tasks : List Task) (taskId : String)
    (newStatus : Status) (newIndex : Int) (d : Task)
    (hFind : tasks.find? (fun t => t.id = taskId) = some d) :
    (handleTaskReorder tasks taskId newStatus newIndex).filter
        (fun t => t.status = newStatus)
      = reorderNewColumn tasks taskId newStatus newIndex d := by
  have hres := handleTaskReorder_eq tasks taskId newStatus newIndex d hFind
  have hperm :
      ((handleTaskReorder tasks taskId newStatus newIndex).filter
          (fun t => t.status = newStatus)).Perm
        (reorderNewColumn tasks taskId newStatus newIndex d) := by
    rw [hres]
    have h1 := (reorderColumnSort_perm
        ((reorderOthers tasks taskId).filter (fun t => ¬(t.status = newStatus))
          ++ reorderNewColumn tasks taskId newStatus newIndex d)).filter
      (fun t => decide (t.status = newStatus))
    rw [List.filter_append] at h1
    have h2 : ((reorderOthers tasks taskId).filter
          (fun t => ¬(t.status = newStatus))).filter
        (fun t => decide (t.status = newStatus)) = [] := by
      rw [List.filter_eq_nil_iff]
      intro a ha
      have h3 := (List.mem_filter.mp ha).2
      simp only [decide_eq_true_eq] at h3 ⊢
      exact h3
    have h4 : (reorderNewColumn tasks taskId newStatus newIndex d).filter
        (fun t => decide (t.status = newStatus))
        = reorderNewColumn tasks taskId newStatus newIndex d := by
      rw [List.filter_eq_self]
      intro a ha
      simpa using reorderNewColumn_status tasks taskId newStatus newIndex d a ha
    rw [h2, h4] at h1
    simpa using h1
  have hsorted : List.Sorted orderLe
      ((handleTaskReorder tasks taskId newStatus newIndex).filter
        (fun t => t.status = newStatus)) := by
    rw [hres]
    exact (reorderColumnSort_sorted _).filter _
  have hnodup : (((handleTaskReorder tasks taskId newStatus newIndex).filter
      (fun t => t.status = newStatus)).map Task.order).Nodup := by
    refine (List.Perm.nodup_iff (hperm.map Task.order)).mpr ?_
    rw [reorderNewColumn, renumberFrom_map_order]
    refine List.Nodup.map ?_ (List.nodup_range _)
    intro a b hab
    simp only [add_left_cancel_iff, Nat.cast_inj] at hab
    exact hab
  have hlt : List.Pairwise orderLt
      ((handleTaskReorder tasks taskId newStatus newIndex).filter
        (fun t => t.status = newStatus)) := by
    have hne : List.Pairwise (fun a b : Task => a.order ≠ b.order)
        ((handleTaskReorder tasks taskId newStatus newIndex).filter
          (fun t => t.status = newStatus)) :=
      List.pairwise_map.mp hnodup
    exact (hsorted.and hne).imp (fun h => lt_of_le_of_ne h.1 h.2)
  exact List.eq_of_perm_of_sorted hperm hlt (renumberFrom_pairwise_lt _ _)

/-- C1: after a reorder that names an existing task, the order values in the
    destination status column of the returned collection are exactly
    0, 1, ..., n-1 in list position order, n being the size of that column
    after the move. -/
theorem reorder_orders_dense (tasks : List Task) (taskId : String)
    (newStatus : Status) (newIndex : Int) (d : Task)
    (hFind : tasks.find? (fun t => t.id = taskId) = some d) :
    ((handleTaskReorder tasks taskId newStatus newIndex).filter
        (fun t => t.status = newStatus)).map Task.order
      = (List.range ((handleTaskReorder tasks taskId newStatus newIndex).filter
            (fun t => t.status = newStatus)).length).map (fun i : Nat => (i : Int)) := by
  rw [handleTaskReorder_filter_dest tasks taskId newStatus newIndex d hFind]
  rw [reorderNewColumn, renumberFrom_map_order, renumberFrom_length]
  simp

/-- Witness for reorder_orders_dense: dragging b to the top of its column. -/
theorem reorder_orders_dense_witness :
    let a := { sampleTask with id := "a", order := 0 }
    let b := { sampleTask with id := "b", order := 1 }
    [a, b].find? (fun t => t.id = "b") = some b ∧
    ((handleTaskReorder [a, b] "b" Status.notStarted 0).filter
        (fun t => t.status = Status.notStarted)).map Task.order
      = (List.range ((handleTaskReorder [a, b] "b" Status.notStarted 0).filter
            (fun t => t.status = Status.notStarted)).length).map (fun i : Nat => (i : Int)) := by
  intro a b
  exact ⟨by decide, reorder_orders_dense [a, b] "b" Status.notStarted 0 b (by decide)⟩

theorem renumberFrom_getElem_insertIdx :
    ∀ (k : Nat) (l : List Task) (d : Task) (n : Int), k ≤ l.length →
      (renumberFrom n (l.insertIdx k d))[k]? = some { d with order := n + (k : Int) } := by
  intro k
  induction k with
  | zero =>
      intro l d n _
      simp [List.insertIdx_zero, renumberFrom]
  | succ k ih =>
      intro l d n h
      cases l with
      | nil => simp at h
      | cons t ts =>
          have harith : (n + 1) + (k : Int) = n + ((k + 1 : Nat) : Int) := by
            push_cast
            ring
          rw [List.insertIdx_succ_cons, renumberFrom, List.getElem?_cons_succ,
            ih ts d (n + 1) (by simpa using h), harith]

/-- C5: the destination index is clamped to the range 0 to len, the moved
    task sits at exactly the clamped index of the destination column with the
    destination status, and an empty destination column yields the single
    order value 0. -/
theorem reorder_moved_task_position (tasks : List Task) (taskId : String)
    (newStatus : Status) (newIndex : Int) (d : Task)
    (hFind : tasks.find? (fun t => t.id = taskId) = some d) :
    let len := ((reorderOthers tasks taskId).filter
        (fun t => t.status = newStatus)).length
    let col := (handleTaskReorder tasks taskId newStatus newIndex).filter
        (fun t => t.status = newStatus)
    clampIndex newIndex len ≤ len ∧
    col[clampIndex newIndex len]?
        = some { d with status := newStatus, order := (clampIndex newIndex len : Int) } ∧
    (len = 0 → col.map Task.order = [0]) := by
  intro len col
  have hlen : (reorderTargetSorted tasks taskId newStatus).length = len :=
    (reorderColumnSort_perm _).length_eq
  have hsafe : reorderSafeIndex tasks taskId newStatus newIndex
      = clampIndex newIndex len := by
    rw [reorderSafeIndex, hlen]
  have hcol : col = reorderNewColumn tasks taskId newStatus newIndex d :=
    handleTaskReorder_filter_dest tasks taskId newStatus newIndex d hFind
  refine ⟨clampIndex_le newIndex len, ?_, ?_⟩
  · rw [hcol, reorderNewColumn, ← hsafe]
    rw [renumberFrom_getElem_insertIdx _ _ _ _
      (reorderSafeIndex_le tasks taskId newStatus newIndex)]
    rw [zero_add]
  · intro h0
    have hnil : reorderTargetSorted tasks taskId newStatus = [] := by
      rw [← List.length_eq_zero, hlen, h0]
    have hsafe0 : reorderSafeIndex tasks taskId newStatus newIndex = 0 := by
      have := reorderSafeIndex_le tasks taskId newStatus newIndex
      rw [hnil] at this
      simpa using this
    rw [hcol, reorderNewColumn, hnil, hsafe0, List.insertIdx_zero]
    simp [renumberFrom]

/-- Witness for reorder_moved_task_position: moving a into the empty
    IN_PROGRESS column at an out-of-range index. -/
theorem reorder_moved_task_position_witness :
    let a := { sampleTask with id := "a", order := 0 }
    let b := { sampleTask with id := "b", order := 1 }
    [a, b].find? (fun t => t.id = "a") = some a ∧
    (let len := ((reorderOthers [a, b] "a").filter
        (fun t => t.status = Status.inProgress)).length
    let col := (handleTaskReorder [a, b] "a" Status.inProgress 5).filter
        (fun t => t.status = Status.inProgress)
    clampIndex 5 len ≤ len ∧
    col[clampIndex 5 len]?
        = some { a with status := Status.inProgress, order := (clampIndex 5 len : Int) } ∧
    (len = 0 → col.map Task.order = [0])) := by
  intro a b
  exact ⟨by decide, reorder_moved_task_position [a, b] "a" Status.inProgress 5 a (by decide)⟩

/-- C7: a reorder leaves every task outside the destination column untouched:
    the non-destination part of the result is, as a multiset, exactly the
    non-destination part of the input minus nothing, each task with all its
    fields unchanged, and each such input task still occurs in the result. -/
theorem reorder_frame (tasks : List Task) (taskId : String) (newStatus : Status)
    (newIndex : Int) (d : Task)
    (hFind : tasks.find? (fun t => t.id = taskId) = some d) :
    ((handleTaskReorder tasks taskId newStatus newIndex).filter
        (fun t => ¬(t.status = newStatus))).Perm
      (tasks.filter (fun t => ¬(t.id = taskId) ∧ ¬(t.status = newStatus))) ∧
    ∀ t ∈ tasks, ¬(t.id = taskId) → ¬(t.status = newStatus) →
      t ∈ handleTaskReorder tasks taskId newStatus newIndex := by
  have hP : ((handleTaskReorder tasks taskId newStatus newIndex).filter
      (fun t => ¬(t.status = newStatus))).Perm
      (tasks.filter (fun t => ¬(t.id = taskId) ∧ ¬(t.status = newStatus))) := by
    rw [handleTaskReorder_eq tasks taskId newStatus newIndex d hFind]
    have h1 := (reorderColumnSort_perm
        ((reorderOthers tasks taskId).filter (fun t => ¬(t.status = newStatus))
          ++ reorderNewColumn tasks taskId newStatus newIndex d)).filter
      (fun t => decide ¬(t.status = newStatus))
    rw [List.filter_append] at h1
    have h2 : (reorderNewColumn tasks taskId newStatus newIndex d).filter
        (fun t => decide ¬(t.status = newStatus)) = [] := by
      rw [List.filter_eq_nil_iff]
      intro a ha
      have hsa := reorderNewColumn_status tasks taskId newStatus newIndex d a ha
      simp [hsa]
    have h3 : ((reorderOthers tasks taskId).filter
          (fun t => ¬(t.status = newStatus))).filter
        (fun t => decide ¬(t.status = newStatus))
        = tasks.filter (fun t => ¬(t.id = taskId) ∧ ¬(t.status = newStatus)) := by
      rw [reorderOthers, List.filter_filter, List.filter_filter]
      refine List.filter_congr ?_
      intro a _
      by_cases hs : a.status = newStatus <;> by_cases hi : a.id = taskId <;>
        simp [hs, hi]
    rw [h2, h3] at h1
    simpa using h1
  refine ⟨hP, ?_⟩
  intro t ht hid hstat
  have hmem : t ∈ tasks.filter (fun x => ¬(x.id = taskId) ∧ ¬(x.status = newStatus)) :=
    List.mem_filter.mpr ⟨ht, by simp [hid, hstat]⟩
  exact List.mem_of_mem_filter (hP.mem_iff.mpr hmem)

/-- Witness for reorder_frame: a cross-column move of b leaves c, the
    remaining NOT_STARTED task, in place with all fields intact. -/
theorem reorder_frame_witness :
    let b := { sampleTask with id := "b", order := 0 }
    let c := { sampleTask with id := "c", order := 1, title := "keep" }
    [b, c].find? (fun t => t.id = "b") = some b ∧
    ((handleTaskReorder [b, c] "b" Status.completed 0).filter
        (fun t => ¬(t.status = Status.completed))).Perm
      ([b, c].filter (fun t => ¬(t.id = "b") ∧ ¬(t.status = Status.completed))) ∧
    c ∈ handleTaskReorder [b, c] "b" Status.completed 0 := by
  intro b c
  have h := reorder_frame [b, c] "b" Status.completed 0 b (by decide)
  exact ⟨by decide, h.1, h.2 c (by decide) (by decide) (by decide)⟩

theorem list_filter_eq_of_find?_nodup :
    ∀ (tasks : List Task) (taskId : String) (d : Task),
      tasks.find? (fun t => t.id = taskId) = some d →
      (tasks.map Task.id).Nodup →
      tasks.filter (fun t => t.id = taskId) = [d] := by
  intro tasks
  induction tasks with
  | nil =>
      intro taskId d h _
      simp [List.find?] at h
  | cons h t ih =>
      intro taskId d hFind hNodup
      have hnd : h.id ∉ t.map Task.id ∧ (t.map Task.id).Nodup := by
        rw [List.map_cons] at hNodup
        exact List.nodup_cons.mp hNodup
      by_cases hh : h.id = taskId
      · have hd : d = h := by
          rw [List.find?_cons_of_pos _ (by simpa using hh)] at hFind
          exact (Option.some_inj.mp hFind).symm
        have hrest : t.filter (fun x => x.id = taskId) = [] := by
          rw [List.filter_eq_nil_iff]
          intro a ha hpa
          have hmem : a.id ∈ t.map Task.id := List.mem_map_of_mem _ ha
          have haid : a.id = taskId := by simpa using hpa
          refine hnd.1 ?_
          rw [hh, ← haid]
          exact hmem
        rw [List.filter_cons_of_pos (by simpa using hh), hrest, hd]
      · rw [List.find?_cons_of_neg _ (by simpa using hh)] at hFind
        rw [List.filter_cons_of_neg (by simpa using hh)]
        exact ih taskId d hFind hnd.2

/-- C10: a reorder naming an existing task in a collection with unique ids
    returns a collection with exactly the same multiset of task ids. -/
theorem reorder_id_multiset (tasks : List Task) (taskId : String) (newStatus : Status)
    (newIndex : Int) (d : Task)
    (hFind : tasks.find? (fun t => t.id = taskId) = some d)
    (hNodup : (tasks.map Task.id).Nodup) :
    ((handleTaskReorder tasks taskId newStatus newIndex).map Task.id).Perm
      (tasks.map Task.id) := by
  rw [handleTaskReorder_eq tasks taskId newStatus newIndex d hFind]
  have hNewIds : ((reorderNewColumn tasks taskId newStatus newIndex d).map Task.id).Perm
      (d.id :: ((reorderOthers tasks taskId).filter
        (fun t => t.status = newStatus)).map Task.id) := by
    rw [reorderNewColumn, renumberFrom_map_id]
    have hins := (List.perm_insertIdx { d with status := newStatus }
      (reorderTargetSorted tasks taskId newStatus)
      (reorderSafeIndex_le tasks taskId newStatus newIndex)).map Task.id
    refine hins.trans ?_
    simp only [List.map_cons]
    exact List.Perm.cons _ ((reorderColumnSort_perm _).map Task.id)
  have hmain : ((reorderColumnSort
      ((reorderOthers tasks taskId).filter (fun t => ¬(t.status = newStatus))
        ++ reorderNewColumn tasks taskId newStatus newIndex d)).map Task.id).Perm
      (d.id :: (reorderOthers tasks taskId).map Task.id) := by
    refine ((reorderColumnSort_perm _).map Task.id).trans ?_
    rw [List.map_append]
    refine ((List.Perm.append_left _ hNewIds).trans ?_)
    refine List.perm_middle.trans ?_
    refine List.Perm.cons _ ?_
    refine List.perm_append_comm.trans ?_
    rw [← List.map_append]
    refine List.Perm.map _ ?_
    have hswap : (reorderOthers tasks taskId).filter (fun t => ¬(t.status = newStatus))
        = (reorderOthers tasks taskId).filter
            (fun x => !(decide (x.status = newStatus))) := by
      refine List.filter_congr ?_
      intro a _
      simp
    rw [hswap]
    exact List.filter_append_perm _ _
  refine hmain.trans ?_
  have hfil := list_filter_eq_of_find?_nodup tasks taskId d hFind hNodup
  have hsplit := (List.filter_append_perm (fun t => decide (t.id = taskId)) tasks).map Task.id
  rw [List.map_append, hfil] at hsplit
  have hswap2 : tasks.filter (fun x => !(decide (x.id = taskId)))
      = reorderOthers tasks taskId := by
    rw [reorderOthers]
    refine (List.filter_congr ?_).symm
    intro a _
    simp
  rw [hswap2] at hsplit
  simpa using hsplit

/-- Witness for reorder_id_multiset on a three-task store. -/
theorem reorder_id_multiset_witness :
    let a := { sampleTask with id := "a", order := 0 }
    let b := { sampleTask with id := "b", order := 1 }
    let c := { sampleTask with id := "c", status := Status.inProgress, order := 0 }
    [a, b, c].find? (fun t => t.id = "b") = some b ∧
    ([a, b, c].map Task.id).Nodup ∧
    ((handleTaskReorder [a, b, c] "b" Status.inProgress 1).map Task.id).Perm
      ([a, b, c].map Task.id) := by
  intro a b c
  exact ⟨by decide, by decide,
    reorder_id_multiset [a, b, c] "b" Status.inProgress 1 b (by decide) (by decide)⟩

instance : IsTotal Task getTasksLe := by
  constructor
  intro a b
  unfold getTasksLe
  by_cases h : a.order = b.order
  · rw [if_neg (by omega), if_neg (by omega)]
    omega
  · rw [if_pos (by omega), if_pos (by omega)]
    omega

instance : IsTrans Task getTasksLe := by
  constructor
  intro a b c hab hbc
  unfold getTasksLe at hab hbc ⊢
  by_cases h1 : a.order = b.order <;> by_cases h2 : b.order = c.order
  · rw [if_neg (by omega)] at hab
    rw [if_neg (by omega)] at hbc
    rw [if_neg (by omega)]
    omega
  · rw [if_neg (by omega)] at hab
    rw [if_pos (by omega)] at hbc
    rw [if_pos (by omega)]
    omega
  · rw [if_pos (by omega)] at hab
    rw [if_neg (by omega)] at hbc
    rw [if_pos (by omega)]
    omega
  · rw [if_pos (by omega)] at hab
    rw [if_pos (by omega)] at hbc
    rw [if_pos (by omega)]
    omega

theorem getTasksSort_perm (l : List Task) : (getTasksSort l).Perm l :=
  List.perm_insertionSort _ l

theorem getTasksSort_sorted (l : List Task) :
    List.Sorted getTasksLe (getTasksSort l) :=
  List.sorted_insertionSort _ l

/-- C6 counterexample: two tasks with equal order values and distinct
    createdAt values; the reconciler comparator keeps the input order while
    the read-side comparator of getTasks swaps them, so the two sorts
    disagree on this pair. -/
theorem reorder_sort_vs_read_sort_cex :
    reorderColumnSort
        [{ sampleTask with id := "a", createdAt := 1 },
         { sampleTask with id := "b", createdAt := 2 }]
      = [{ sampleTask with id := "a", createdAt := 1 },
         { sampleTask with id := "b", createdAt := 2 }] ∧
    getTasksSort
        [{ sampleTask with id := "a", createdAt := 1 },
         { sampleTask with id := "b", createdAt := 2 }]
      = [{ sampleTask with id := "b", createdAt := 2 },
         { sampleTask with id := "a", createdAt := 1 }] := by
  constructor <;> decide

/-- C6 amended: the reconciler sorts the destination column by order
    ascending only (stable, no createdAt tiebreak); this agrees with the
    read-side sort of getTasks whenever the order values are pairwise
    distinct. -/
theorem sorts_agree_on_distinct_orders (l : List Task)
    (hNodup : (l.map Task.order).Nodup) :
    reorderColumnSort l = getTasksSort l := by
  have hperm : (reorderColumnSort l).Perm (getTasksSort l) :=
    (reorderColumnSort_perm l).trans (getTasksSort_perm l).symm
  have hne1 : List.Pairwise (fun a b : Task => a.order ≠ b.order) (reorderColumnSort l) :=
    List.pairwise_map.mp
      (((reorderColumnSort_perm l).map Task.order).nodup_iff.mpr hNodup)
  have hlt1 : List.Pairwise orderLt (reorderColumnSort l) :=
    ((reorderColumnSort_sorted l).and hne1).imp (fun h => lt_of_le_of_ne h.1 h.2)
  have hne2 : List.Pairwise (fun a b : Task => a.order ≠ b.order) (getTasksSort l) :=
    List.pairwise_map.mp
      (((getTasksSort_perm l).map Task.order).nodup_iff.mpr hNodup)
  have hlt2 : List.Pairwise orderLt (getTasksSort l) := by
    refine ((getTasksSort_sorted l).and hne2).imp ?_
    intro a b h
    have h1 := h.1
    unfold getTasksLe at h1
    rw [if_pos h.2] at h1
    exact lt_of_le_of_ne h1 h.2
  exact List.eq_of_perm_of_sorted hperm hlt1 hlt2

/-- Witness for sorts_agree_on_distinct_orders on a concrete pair with
    distinct orders where the createdAt tiebreak would fire if consulted. -/
theorem sorts_agree_on_distinct_orders_witness :
    (([{ sampleTask with id := "a", order := 1, createdAt := 5 },
       { sampleTask with id := "b", order := 0, createdAt := 9 }].map Task.order).Nodup) ∧
    reorderColumnSort
        [{ sampleTask with id := "a", order := 1, createdAt := 5 },
         { sampleTask with id := "b", order := 0, createdAt := 9 }]
      = getTasksSort
          [{ sampleTask with id := "a", order := 1, createdAt := 5 },
           { sampleTask with id := "b", order := 0, createdAt := 9 }] :=
  ⟨by decide, sorts_agree_on_distinct_orders _ (by decide)⟩

/-- C4: an interactive date drag commits the shifted dates exactly when the
    shifted start is not after the shifted due date, and otherwise leaves
    both dates untouched; a move shifts both dates by the day delta, a left
    resize only the start, a right resize only the due date. -/
theorem handleMouseUp_commits_iff_valid (ty : DragType) (dragOffset : Int)
    (s e : Int) :
    handleMouseUp ty dragOffset s e
      = (if (shiftDates ty (daysDelta dragOffset) s e).1
            ≤ (shiftDates ty (daysDelta dragOffset) s e).2
         then shiftDates ty (daysDelta dragOffset) s e
         else (s, e)) := by
  by_cases h : daysDelta dragOffset = 0
  · cases ty <;> simp [handleMouseUp, h, shiftDates]
  · simp [handleMouseUp, h]

theorem ganttScan_true :
    ∀ (ts : List Task) (mn mx : Int),
      (ganttScan ts (true, mn, mx)).1 = true ∧
      ((ganttScan ts (true, mn, mx)).2.1 = mn ∨
        (ganttScan ts (true, mn, mx)).2.1 ∈ (qualPairs ts).map Prod.fst) ∧
      (ganttScan ts (true, mn, mx)).2.1 ≤ mn ∧
      (∀ x ∈ (qualPairs ts).map Prod.fst, (ganttScan ts (true, mn, mx)).2.1 ≤ x) ∧
      ((ganttScan ts (true, mn, mx)).2.2 = mx ∨
        (ganttScan ts (true, mn, mx)).2.2 ∈ (qualPairs ts).map Prod.snd) ∧
      mx ≤ (ganttScan ts (true, mn, mx)).2.2 ∧
      (∀ x ∈ (qualPairs ts).map Prod.snd, x ≤ (ganttScan ts (true, mn, mx)).2.2) := by
  intro ts
  induction ts with
  | nil =>
      intro mn mx
      simp [ganttScan, qualPairs]
  | cons t rest ih =>
      intro mn mx
      rcases hs : t.startDate with _ | s
      · have hstep : ganttScan (t :: rest) (true, mn, mx) = ganttScan rest (true, mn, mx) := by
          simp [ganttScan, hs]
        have hq : qualPairs (t :: rest) = qualPairs rest := by
          simp [qualPairs, List.filterMap_cons, hs]
        rw [hstep, hq]
        exact ih mn mx
      · rcases hd : t.dueDate with _ | e
        · have hstep : ganttScan (t :: rest) (true, mn, mx) = ganttScan rest (true, mn, mx) := by
            simp [ganttScan, hs, hd]
          have hq : qualPairs (t :: rest) = qualPairs rest := by
            simp [qualPairs, List.filterMap_cons, hs, hd]
          rw [hstep, hq]
          exact ih mn mx
        · have hstep : ganttScan (t :: rest) (true, mn, mx)
              = ganttScan rest (true, if s < mn then s else mn, if e > mx then e else mx) := by
            simp [ganttScan, hs, hd]
          have hq : qualPairs (t :: rest) = (s, e) :: qualPairs rest := by
            simp [qualPairs, List.filterMap_cons, hs, hd]
          rw [hstep, hq]
          obtain ⟨h1, h2, h3, h4, h5, h6, h7⟩ :=
            ih (if s < mn then s else mn) (if e > mx then e else mx)
          have hminle : (if s < mn then s else mn) ≤ mn := by split <;> omega
          have hmins : (if s < mn then s else mn) ≤ s := by split <;> omega
          have hmaxge : mx ≤ (if e > mx then e else mx) := by split <;> omega
          have hmaxe : e ≤ (if e > mx then e else mx) := by split <;> omega
          refine ⟨h1, ?_, le_trans h3 hminle, ?_, ?_, le_trans hmaxge h6, ?_⟩
          · rcases h2 with h2 | h2
            · by_cases hc : s < mn
              · right
                rw [h2, if_pos hc, List.map_cons]
                exact List.mem_cons_self _ _
              · left
                rw [h2, if_neg hc]
            · right
              rw [List.map_cons]
              exact List.mem_cons_of_mem _ h2
          · intro x hx
            rw [List.map_cons] at hx
            rcases List.mem_cons.mp hx with hx | hx
            · exact hx ▸ le_trans h3 hmins
            · exact h4 x hx
          · rcases h5 with h5 | h5
            · by_cases hc : e > mx
              · right
                rw [h5, if_pos hc, List.map_cons]
                exact List.mem_cons_self _ _
              · left
                rw [h5, if_neg hc]
            · right
              rw [List.map_cons]
              exact List.mem_cons_of_mem _ h5
          · intro x hx
            rw [List.map_cons] at hx
            rcases List.mem_cons.mp hx with hx | hx
            · exact hx ▸ le_trans hmaxe h6
            · exact h7 x hx

theorem ganttScan_false :
    ∀ (ts : List Task) (a b : Int),
      (qualPairs ts = [] ∧ ganttScan ts (false, a, b) = (false, a, b)) ∨
      ((ganttScan ts (false, a, b)).1 = true ∧
        (ganttScan ts (false, a, b)).2.1 ∈ (qualPairs ts).map Prod.fst ∧
        (∀ x ∈ (qualPairs ts).map Prod.fst, (ganttScan ts (false, a, b)).2.1 ≤ x) ∧
        (ganttScan ts (false, a, b)).2.2 ∈ (qualPairs ts).map Prod.snd ∧
        (∀ x ∈ (qualPairs ts).map Prod.snd, x ≤ (ganttScan ts (false, a, b)).2.2)) := by
  intro ts
  induction ts with
  | nil =>
      intro a b
      left
      exact ⟨rfl, rfl⟩
  | cons t rest ih =>
      intro a b
      rcases hs : t.startDate with _ | s
      · have hstep : ganttScan (t :: rest) (false, a, b) = ganttScan rest (false, a, b) := by
          simp [ganttScan, hs]
        have hq : qualPairs (t :: rest) = qualPairs rest := by
          simp [qualPairs, List.filterMap_cons, hs]
        rw [hstep, hq]
        exact ih a b
      · rcases hd : t.dueDate with _ | e
        · have hstep : ganttScan (t :: rest) (false, a, b) = ganttScan rest (false, a, b) := by
            simp [ganttScan, hs, hd]
          have hq : qualPairs (t :: rest) = qualPairs rest := by
            simp [qualPairs, List.filterMap_cons, hs, hd]
          rw [hstep, hq]
          exact ih a b
        · right
          have hstep : ganttScan (t :: rest) (false, a, b) = ganttScan rest (true, s, e) := by
            simp [ganttScan, hs, hd]
          have hq : qualPairs (t :: rest) = (s, e) :: qualPairs rest := by
            simp [qualPairs, List.filterMap_cons, hs, hd]
          rw [hstep, hq]
          obtain ⟨h1, h2, h3, h4, h5, h6, h7⟩ := ganttScan_true rest s e
          refine ⟨h1, ?_, ?_, ?_, ?_⟩
          · rcases h2 with h2 | h2
            · rw [List.map_cons, h2]
              exact List.mem_cons_self _ _
            · rw [List.map_cons]
              exact List.mem_cons_of_mem _ h2
          · intro x hx
            rw [List.map_cons] at hx
            rcases List.mem_cons.mp hx with hx | hx
            · exact hx ▸ h3
            · exact h4 x hx
          · rcases h5 with h5 | h5
            · rw [List.map_cons, h5]
              exact List.mem_cons_self _ _
            · rw [List.map_cons]
              exact List.mem_cons_of_mem _ h5
          · intro x hx
            rw [List.map_cons] at hx
            rcases List.mem_cons.mp hx with hx | hx
            · exact hx ▸ h6
            · exact h7 x hx

theorem timelineData_nonempty (today : Int) (tasks : List Task) (h : tasks ≠ []) :
    timelineData today tasks
      = ((ganttScan tasks (false, today, today)).2.1 - 7,
         (ganttScan tasks (false, today, today)).2.2 + 14) := by
  cases tasks with
  | nil => exact absurd rfl h
  | cons t ts => rfl

/-- C8 amended: the timeline window is the single day today exactly when the
    collection is empty; a nonempty collection without any fully dated task
    yields the window from today minus 7 to today plus 14; and when fully
    dated tasks exist the window runs from their minimal start minus 7 to
    their maximal due plus 14. -/
theorem timelineData_window (today : Int) (tasks : List Task) :
    (tasks = [] → timelineData today tasks = (today, today)) ∧
    (tasks ≠ [] → qualPairs tasks = [] →
      timelineData today tasks = (today - 7, today + 14)) ∧
    (∀ m M : Int,
      m ∈ (qualPairs tasks).map Prod.fst →
      (∀ x ∈ (qualPairs tasks).map Prod.fst, m ≤ x) →
      M ∈ (qualPairs tasks).map Prod.snd →
      (∀ x ∈ (qualPairs tasks).map Prod.snd, x ≤ M) →
      timelineData today tasks = (m - 7, M + 14)) := by
  refine ⟨?_, ?_, ?_⟩
  · intro h
    rw [h]
    rfl
  · intro hne hq
    rw [timelineData_nonempty today tasks hne]
    rcases ganttScan_false tasks today today with ⟨_, heq⟩ | ⟨_, h2, _, _, _⟩
    · rw [heq]
    · rw [hq] at h2
      simp at h2
  · intro m M hm hmub hM hMub
    have hqne : qualPairs tasks ≠ [] := by
      intro hq0
      rw [hq0] at hm
      simp at hm
    have hne : tasks ≠ [] := by
      intro h0
      exact hqne (by rw [h0]; rfl)
    rw [timelineData_nonempty today tasks hne]
    rcases ganttScan_false tasks today today with ⟨hq0, _⟩ | ⟨_, h2, h3, h5, h6⟩
    · exact absurd hq0 hqne
    · have hmin : (ganttScan tasks (false, today, today)).2.1 = m :=
        le_antisymm (h3 m hm) (hmub _ h2)
      have hmax : (ganttScan tasks (false, today, today)).2.2 = M :=
        le_antisymm (hMub _ h5) (h6 M hM)
      rw [hmin, hmax]

/-- C8 counterexample: a nonempty collection whose single task has no dates
    produces the 22-day window around today, not a single-day window. -/
theorem timelineData_no_dates_cex :
    timelineData 0 [sampleTask] = (-7, 14) ∧ timelineData 0 [sampleTask] ≠ (0, 0) := by
  constructor <;> decide

/-- Witness for timelineData_window with two dated tasks. -/
theorem timelineData_window_witness :
    timelineData 0 [{ sampleTask with startDate := some 10, dueDate := some 20 },
                    { sampleTask with startDate := some 5, dueDate := some 12 }]
      = (5 - 7, 20 + 14) :=
  (timelineData_window 0
      [{ sampleTask with startDate := some 10, dueDate := some 20 },
       { sampleTask with startDate := some 5, dueDate := some 12 }]).2.2
    5 20 (by decide) (by decide) (by decide) (by decide)

theorem dfsVisit_extend (vt : List Task) :
    ∀ (n : Nat) (t : Task) (res : List Task),
      (∀ x ∈ res, x ∈ vt) → (res.map Task.id).Nodup → t ∈ vt →
      ∃ ext, dfsVisit vt n res t = res ++ ext ∧
        (∀ x ∈ res ++ ext, x ∈ vt) ∧ ((res ++ ext).map Task.id).Nodup := by
  intro n
  induction n with
  | zero =>
      intro t res h1 h2 _
      exact ⟨[], by simp [dfsVisit], by simpa using h1, by simpa using h2⟩
  | succ n ih =>
      intro t res h1 h2 ht
      by_cases hc : t.id ∈ res.map Task.id
      · refine ⟨[], ?_, by simpa using h1, by simpa using h2⟩
        simp [dfsVisit, hc]
      · have h1' : ∀ x ∈ res ++ [t], x ∈ vt := by
          intro x hx
          rcases List.mem_append.mp hx with hx | hx
          · exact h1 x hx
          · rw [List.mem_singleton.mp hx]
            exact ht
        have h2' : ((res ++ [t]).map Task.id).Nodup := by
          rw [List.map_append, List.nodup_append]
          refine ⟨h2, List.nodup_singleton _, ?_⟩
          intro a ha hb
          rw [List.map_singleton, List.mem_singleton] at hb
          rw [hb] at ha
          exact hc ha
        have hfold : ∀ (cs : List Task), (∀ c ∈ cs, c ∈ vt) →
            ∀ (acc : List Task), (∀ x ∈ acc, x ∈ vt) → (acc.map Task.id).Nodup →
            ∃ ext, cs.foldl (dfsVisit vt n) acc = acc ++ ext ∧
              (∀ x ∈ acc ++ ext, x ∈ vt) ∧ ((acc ++ ext).map Task.id).Nodup := by
          intro cs
          induction cs with
          | nil =>
              intro _ acc ha1 ha2
              exact ⟨[], by simp, by simpa using ha1, by simpa using ha2⟩
          | cons c cs ihc =>
              intro hmem acc ha1 ha2
              obtain ⟨e1, he1, hv1, hn1⟩ := ih c acc ha1 ha2 (hmem c (by simp))
              obtain ⟨e2, he2, hv2, hn2⟩ :=
                ihc (fun x hx => hmem x (by simp [hx])) (acc ++ e1) hv1 hn1
              refine ⟨e1 ++ e2, ?_, ?_, ?_⟩
              · rw [List.foldl_cons, he1, he2, List.append_assoc]
              · intro x hx
                apply hv2
                rw [List.append_assoc]
                exact hx
              · rw [← List.append_assoc]
                exact hn2
        have hch : ∀ c ∈ byStartSort (childrenOf vt t.id), c ∈ vt := by
          intro c hc2
          exact List.mem_of_mem_filter
            ((List.perm_insertionSort startLe _).mem_iff.mp hc2)
        obtain ⟨ext, hext, hv, hn⟩ := hfold _ hch (res ++ [t]) h1' h2'
        refine ⟨t :: ext, ?_, ?_, ?_⟩
        · have hstep : dfsVisit vt (n + 1) res t
              = (byStartSort (childrenOf vt t.id)).foldl (dfsVisit vt n) (res ++ [t]) := by
            simp [dfsVisit, hc]
          rw [hstep, hext, List.append_assoc]
          rfl
        · intro x hx
          apply hv
          rw [List.append_assoc]
          exact hx
        · have hrw : res ++ t :: ext = (res ++ [t]) ++ ext := by
            rw [List.append_assoc]
            rfl
          rw [hrw]
          exact hn

theorem dfsFold_extend (vt : List Task) (fuel : Nat) :
    ∀ (cs : List Task), (∀ c ∈ cs, c ∈ vt) →
    ∀ (acc : List Task), (∀ x ∈ acc, x ∈ vt) → (acc.map Task.id).Nodup →
    ∃ ext, cs.foldl (dfsVisit vt fuel) acc = acc ++ ext ∧
      (∀ x ∈ acc ++ ext, x ∈ vt) ∧ ((acc ++ ext).map Task.id).Nodup := by
  intro cs
  induction cs with
  | nil =>
      intro _ acc ha1 ha2
      exact ⟨[], by simp, by simpa using ha1, by simpa using ha2⟩
  | cons c cs ihc =>
      intro hmem acc ha1 ha2
      obtain ⟨e1, he1, hv1, hn1⟩ := dfsVisit_extend vt fuel c acc ha1 ha2 (hmem c (by simp))
      obtain ⟨e2, he2, hv2, hn2⟩ :=
        ihc (fun x hx => hmem x (by simp [hx])) (acc ++ e1) hv1 hn1
      refine ⟨e1 ++ e2, ?_, ?_, ?_⟩
      · rw [List.foldl_cons, he1, he2, List.append_assoc]
      · intro x hx
        apply hv2
        rw [List.append_assoc]
        exact hx
      · rw [← List.append_assoc]
        exact hn2

theorem dfsPart_spec (tasks : List Task) :
    (∀ x ∈ dfsPart tasks, x ∈ validTasks tasks) ∧
    ((dfsPart tasks).map Task.id).Nodup := by
  have hroots : ∀ c ∈ ganttRoots (validTasks tasks), c ∈ validTasks tasks := by
    intro c hc
    exact List.mem_of_mem_filter
      ((List.perm_insertionSort startLe _).mem_iff.mp hc)
  obtain ⟨ext, hext, hv, hn⟩ :=
    dfsFold_extend (validTasks tasks) ((validTasks tasks).length + 1)
      (ganttRoots (validTasks tasks)) hroots [] (by simp) (by simp)
  have hdfs : dfsPart tasks = ext := by
    rw [dfsPart, hext]
    simp
  constructor
  · intro x hx
    apply hv
    rw [hdfs] at hx
    simpa using hx
  · rw [hdfs]
    simpa using hn

/-- C3: on a collection with unique ids the topological projection is total
    and duplicate-free: its output is a permutation of the tasks carrying
    both dates, whatever cycles or dangling predecessor references the graph
    contains, and the tasks missed by the traversal form the final segment of
    the output in their original encounter order. -/
theorem sortedValidTasks_total (tasks : List Task)
    (hNodup : (tasks.map Task.id).Nodup) :
    (sortedValidTasks tasks).Perm (validTasks tasks) ∧
    sortedValidTasks tasks
      = dfsPart tasks ++ (validTasks tasks).filter
          (fun t => ¬(t.id ∈ (dfsPart tasks).map Task.id)) := by
  refine ⟨?_, rfl⟩
  have hvNodupIds : ((validTasks tasks).map Task.id).Nodup :=
    List.Nodup.sublist ((List.filter_sublist tasks).map _) hNodup
  have hvNodup : (validTasks tasks).Nodup := List.Nodup.of_map _ hvNodupIds
  obtain ⟨hsub, hresNodupIds⟩ := dfsPart_spec tasks
  have hresNodup : (dfsPart tasks).Nodup := List.Nodup.of_map _ hresNodupIds
  refine List.perm_iff_count.mpr ?_
  intro a
  by_cases hmem : a ∈ validTasks tasks
  · have hcountv : (validTasks tasks).count a = 1 :=
      List.count_eq_one_of_mem hvNodup hmem
    rw [sortedValidTasks, List.count_append, hcountv]
    by_cases hid : a.id ∈ (dfsPart tasks).map Task.id
    · obtain ⟨y, hy, hyid⟩ := List.mem_map.mp hid
      have hyv : y ∈ validTasks tasks := hsub y hy
      have hya : y = a := List.inj_on_of_nodup_map hvNodupIds hyv hmem hyid
      have haRes : a ∈ dfsPart tasks := hya ▸ hy
      have c1 : (dfsPart tasks).count a = 1 :=
        List.count_eq_one_of_mem hresNodup haRes
      have c2 : ((validTasks tasks).filter
          (fun t => ¬(t.id ∈ (dfsPart tasks).map Task.id))).count a = 0 := by
        rw [List.count_eq_zero]
        intro hmm
        have hp := (List.mem_filter.mp hmm).2
        simp only [decide_eq_true_eq] at hp
        exact hp hid
      rw [c1, c2]
    · have c1 : (dfsPart tasks).count a = 0 := by
        rw [List.count_eq_zero]
        intro hmm
        exact hid (List.mem_map_of_mem _ hmm)
      have c2 : ((validTasks tasks).filter
          (fun t => ¬(t.id ∈ (dfsPart tasks).map Task.id))).count a
          = (validTasks tasks).count a := by
        refine List.count_filter ?_
        simpa using hid
      rw [c1, c2, hcountv]
  · have hcv : (validTasks tasks).count a = 0 := List.count_eq_zero_of_not_mem hmem
    rw [sortedValidTasks, List.count_append, hcv]
    have c1 : (dfsPart tasks).count a = 0 := by
      rw [List.count_eq_zero]
      intro h
      exact hmem (hsub a h)
    have c2 : ((validTasks tasks).filter
        (fun t => ¬(t.id ∈ (dfsPart tasks).map Task.id))).count a = 0 := by
      rw [List.count_eq_zero]
      intro h
      exact hmem (List.mem_of_mem_filter h)
    rw [c1, c2]

/-- Witness for sortedValidTasks_total on a malformed graph: a two-task
    cycle plus a task with a dangling predecessor, all fully dated. -/
theorem sortedValidTasks_total_witness :
    let t1 := { sampleTask with id := "t1", startDate := some 1, dueDate := some 2, predecessorTaskId := some "t2" }
    let t2 := { sampleTask with id := "t2", startDate := some 3, dueDate := some 4, predecessorTaskId := some "t1" }
    let t3 := { sampleTask with id := "t3", startDate := some 5, dueDate := some 6, predecessorTaskId := some "ghost" }
    (([t1, t2, t3].map Task.id).Nodup) ∧
    (sortedValidTasks [t1, t2, t3]).Perm (validTasks [t1, t2, t3]) := by
  intro t1 t2 t3
  exact ⟨by decide, (sortedValidTasks_total [t1, t2, t3] (by decide)).1⟩

/-- C9 counterexample: a batched order update after a drag-reorder rewrites
    the order cell of the targeted sheet row but leaves its updatedAt cell at
    the old value, so that write does not stamp updatedAt. -/
theorem updateTaskOrders_no_stamp_cex :
    updateTaskOrders [{ sampleTask with id := "s1", order := 3, updatedAt := 100 }]
        [{ sampleTask with id := "s1", order := 7, updatedAt := 999 }]
      = [{ sampleTask with id := "s1", order := 7, updatedAt := 100 }] ∧
    (100 : Int) ≠ 999 := by
  constructor <;> decide

/-- C9 amended: the full-row update and the status change stamp updatedAt
    with the write time, while the batched per-column order update rewrites
    only the order column and leaves every updatedAt value in the sheet
    unchanged. -/
theorem updatedAt_stamping :
    (∀ (t : Task) (now : Int), (updateTask t now).updatedAt = now) ∧
    (∀ (sheet : List Task) (taskId : String) (st : Status) (now : Int) (r : Task),
      updateTaskStatus sheet taskId st now = some r → r.updatedAt = now) ∧
    (∀ (sheet batch : List Task),
      (updateTaskOrders sheet batch).map Task.updatedAt
        = sheet.map Task.updatedAt) := by
  refine ⟨fun t now => rfl, ?_, ?_⟩
  · intro sheet taskId st now r h
    unfold updateTaskStatus at h
    cases hfind : (getTasksSort sheet).find? (fun t => t.id = taskId) with
    | none =>
        rw [hfind] at h
        exact absurd h (by simp)
    | some t =>
        rw [hfind] at h
        have h2 : updateTask { t with status := st } now = r := by
          simpa using h
        rw [← h2]
        rfl
  · intro sheet batch
    unfold updateTaskOrders
    rw [List.map_map]
    refine List.map_congr_left ?_
    intro row _
    cases h : batch.find? (fun t => t.id = row.id) with
    | none => simp [h]
    | some t => simp [h]

/-- Witness for updatedAt_stamping at concrete write times. -/
theorem updatedAt_stamping_witness :
    (updateTask sampleTask 7).updatedAt = 7 ∧
    ({ sampleTask with status := Status.completed, updatedAt := 42 } : Task).updatedAt = 42 ∧
    (updateTaskOrders [sampleTask] [{ sampleTask with order := 5 }]).map Task.updatedAt
      = [sampleTask].map Task.updatedAt :=
  ⟨updatedAt_stamping.1 sampleTask 7,
   updatedAt_stamping.2.1 [sampleTask] "t0" Status.completed 42 _ (by decide),
   updatedAt_stamping.2.2 [sampleTask] [{ sampleTask with order := 5 }]⟩

end KTM
